import Mathlib

/-!
Verification of the clothing-classifier inference service (`src/app.py`).

The reproducible logic of the service is embedded shallowly:

* numpy 4-D arrays become `Arr4`: four explicit dimension sizes, a dtype tag,
  and a total indexing function into ℚ.  Floating-point arithmetic is modelled
  as exact rational arithmetic (the spec states its numeric laws up to
  floating-point tolerance); the dtype tag tracks numpy's dtype so that the
  `astype(np.float32)` cast and dtype promotion are visible.
* `preprocess_pytorch_style` follows the source line by line: divide by 255,
  transpose NHWC → NCHW, subtract the per-channel mean, divide by the
  per-channel std, cast to float32.
* the assembly portion of `predict` (lines 70–76 of the source) becomes
  `predictAssembly`: `dict(zip(classes, scores))` is an association list in
  insertion order (the class names are pairwise distinct, so the association
  list is an exact model of the Python dict), `max(d, key=d.get)` is a left
  fold keeping the first strictly-greater element (CPython's `max` returns the
  first maximal element in iteration order, and dict iteration order is
  insertion order), and `predictions_dict[top_class]` is `dictGet`.
* to reason about mutation and hidden state, store-passing variants
  (`preprocessS`, `predictAssemblyS`) thread an explicit heap of allocated
  arrays / dicts, mirroring that every numpy step allocates a fresh array
  (`transpose` returns a view; since nothing is ever written in place, a view
  is observationally a fresh array here) and that the dict is a fresh
  allocation.
* the HTTP boundary (FastAPI/pydantic, keras_image_helper) is an external
  collaborator; the parts of it a claim needs are modelled from the spec and
  marked as such in their doc comments.
-/

namespace ClothingApp

/-- numpy dtype tag: the two floating dtypes that occur in the pipeline. -/
inductive DType where
  | f32
  | f64
  deriving DecidableEq

/-- A 4-dimensional numpy array: dimension sizes, dtype, and the element at
each index (elements modelled as exact rationals). -/
structure Arr4 where
  d0 : Nat
  d1 : Nat
  d2 : Nat
  d3 : Nat
  dtype : DType
  data : Nat → Nat → Nat → Nat → ℚ

/-- The all-zero array, used as the out-of-range default of the store model. -/
def defaultArr : Arr4 := ⟨0, 0, 0, 0, DType.f64, fun _ _ _ _ => 0⟩

instance : Inhabited Arr4 := ⟨defaultArr⟩

/-- `X / s` for a scalar `s` (source line 16, `X = X / 255.0`): elementwise
division; a Python float scalar does not promote the array dtype. -/
def Arr4.divScalar (a : Arr4) (s : ℚ) : Arr4 :=
  { a with data := fun i j k l => a.data i j k l / s }

/-- `X.transpose(0, 3, 1, 2)` (source line 23): NHWC → NCHW.  The new array
at index `(b, c, h, w)` reads the old array at `(b, h, w, c)`, and the
dimension sizes are permuted accordingly. -/
def Arr4.transpose0312 (a : Arr4) : Arr4 :=
  { d0 := a.d0, d1 := a.d3, d2 := a.d1, d3 := a.d2, dtype := a.dtype,
    data := fun b c h w => a.data b h w c }

/-- `X - m` where `m` is a float64 array of shape `(1, 3, 1, 1)` (source
lines 18, 26): `m` broadcasts along axis 1 (the channel axis); subtraction
with a float64 array promotes the result to float64. -/
def Arr4.subChannel (a : Arr4) (m : Nat → ℚ) : Arr4 :=
  { a with dtype := DType.f64, data := fun b c h w => a.data b c h w - m c }

/-- `X / s` where `s` is a float64 array of shape `(1, 3, 1, 1)` (source
lines 19, 26): broadcast along the channel axis, result dtype float64. -/
def Arr4.divChannel (a : Arr4) (s : Nat → ℚ) : Arr4 :=
  { a with dtype := DType.f64, data := fun b c h w => a.data b c h w / s c }

/-- `X.astype(np.float32)` (source line 28): sets the dtype tag; in the exact
rational model of float values the cast leaves the values unchanged. -/
def Arr4.astypeF32 (a : Arr4) : Arr4 :=
  { a with dtype := DType.f32 }

/-- `np.array([0.485, 0.456, 0.406]).reshape(1, 3, 1, 1)` (source line 18),
as the channel-indexed broadcast function. -/
def meanVec : Nat → ℚ
  | 0 => 0.485
  | 1 => 0.456
  | 2 => 0.406
  | _ => 0

/-- `np.array([0.229, 0.224, 0.225]).reshape(1, 3, 1, 1)` (source line 19). -/
def stdVec : Nat → ℚ
  | 0 => 0.229
  | 1 => 0.224
  | 2 => 0.225
  | _ => 1

/-- `preprocess_pytorch_style` (source lines 14–28), step by step:
scale by 1/255, transpose NHWC → NCHW, normalize per channel, cast to
float32. -/
def preprocess_pytorch_style (X : Arr4) : Arr4 :=
  let x1 := X.divScalar 255
  let x2 := x1.transpose0312
  let x3 := (x2.subChannel meanVec).divChannel stdVec
  x3.astypeF32

/-- The fixed class list (source lines 44–55). -/
def classes : List String :=
  ["dress", "hat", "longsleeve", "outwear", "pants",
   "shirt", "shoes", "shorts", "skirt", "t-shirt"]

/-- One step of CPython's `max(iterable, key=...)` loop: the running best is
replaced only when the candidate's key is strictly greater, so the first
maximal element in iteration order wins. -/
def maxStep (best p : String × ℚ) : String × ℚ :=
  if p.2 > best.2 then p else best

/-- `max(d, key=d.get)` over an association list in iteration order:
`none` on an empty dict (Python raises `ValueError` there), otherwise the
first pair attaining the maximal value. -/
def argmaxFirst : List (String × ℚ) → Option (String × ℚ)
  | [] => none
  | p :: rest => some (rest.foldl maxStep p)

/-- Python dict lookup `d[k]` on the association-list model: the value of the
first pair whose key is `k`, `none` when the key is absent (Python raises
`KeyError` there). -/
def dictGet (k : String) : List (String × ℚ) → Option ℚ
  | [] => none
  | (k2, v) :: rest => if k2 = k then some v else dictGet k rest

/-- The assembly portion of `predict` (source lines 70–76):
`predictions_dict = dict(zip(classes, float_predictions))`,
`top_class = max(predictions_dict, key=predictions_dict.get)`,
`top_probability = predictions_dict[top_class]`, returning the triple.
`none` models an uncaught Python exception (only possible for an empty
score list). -/
def predictAssembly (scores : List ℚ) :
    Option (List (String × ℚ) × String × ℚ) :=
  let d := classes.zip scores
  match argmaxFirst d with
  | none => none
  | some tb =>
    match dictGet tb.1 d with
    | none => none
    | some tp => some (d, tb.1, tp)

/-- A heap of allocated numpy arrays; references are list indices. -/
abbrev Store := List Arr4

/-- Dereference an array reference (out-of-range reads give `defaultArr`;
they never arise for the references the pipeline creates). -/
def getArr (σ : Store) (r : Nat) : Arr4 :=
  σ.getD r defaultArr

/-- Store-passing version of `preprocess_pytorch_style`: each numpy
operation allocates a fresh array (the transpose view is modelled as a fresh
array, which is observationally equal because no step writes in place); no
operation writes to an existing array.  Returns the reference to the final
float32 array together with the extended store. -/
def preprocessS (σ : Store) (r : Nat) : Nat × Store :=
  let t0 := getArr σ r
  let t1 := t0.divScalar 255
  let t2 := t1.transpose0312
  let t3 := t2.subChannel meanVec
  let t4 := t3.divChannel stdVec
  let t5 := t4.astypeF32
  (σ.length + 4, σ ++ [t1, t2, t3, t4, t5])

/-- A heap of allocated dicts (as association lists). -/
abbrev DStore := List (List (String × ℚ))

/-- Store-passing version of the assembly portion of `predict`: the dict is a
fresh allocation; the result carries a reference to it.  `none` again models
the uncaught exception on an empty score list. -/
def predictAssemblyS (σ : DStore) (scores : List ℚ) :
    Option (Nat × String × ℚ) × DStore :=
  let d := classes.zip scores
  let σ2 := σ ++ [d]
  match argmaxFirst d with
  | none => (none, σ2)
  | some tb =>
    match dictGet tb.1 d with
    | none => (none, σ2)
    | some tp => (some (σ.length, tb.1, tp), σ2)

/-- Dereference the dict in an assembly result, recovering the pure
result triple. -/
def derefAssembly (p : Option (Nat × String × ℚ) × DStore) :
    Option (List (String × ℚ) × String × ℚ) :=
  p.1.map fun x => (p.2.getD x.1 [], x.2.1, x.2.2)

/-- The process-wide state of the service after startup (source lines 11,
38–55): the configured model name, whether the model artifact loaded, and the
class list.  The `/health` handler never reads any of it. -/
structure AppState where
  model_name : String
  modelLoaded : Bool
  classList : List String

/-- The `GET /health` handler (source lines 96–98): returns the fixed body
`status: healthy`.  The 200 status code is modelled from the spec's "success
status" (FastAPI's default for a handler that returns normally). -/
def health (_s : AppState) : Nat × List (String × String) :=
  (200, [("status", "healthy")])

/-- Modelled from the spec: pydantic's `HttpUrl` format validation of the
request body (source lines 57–58), which is framework code external to this
repository.  The spec only requires that a syntactically valid URL passes
and an invalid one fails; modelled as: an http or https scheme followed by a
nonempty remainder. -/
def isValidHttpUrl (s : String) : Bool :=
  (s.startsWith "http://" && s.length > 7) ||
    (s.startsWith "https://" && s.length > 8)

/-- The stages of pipeline work for one request, in order: image fetch,
preprocessing transform, model execution, prediction assembly. -/
inductive PipeStep where
  | fetch
  | transform
  | modelRun
  | assemble
  deriving DecidableEq

/-- Modelled from the spec: the service boundary for `POST /predict`
(source lines 85–93).  FastAPI validates the request body before the
endpoint body runs, so an invalid URL is answered with a 422 validation
error (client-error status) and no pipeline work happens; otherwise the
endpoint body `predict` (source lines 67–76) runs: image fetch and model
execution are external collaborators passed in as oracles, whose failure
yields a server-error status.  Returns the response status code and the
list of pipeline stages that ran. -/
def servicePredict (fetchImage : String → Option Arr4)
    (runModel : Arr4 → Option (List ℚ)) (url : String) :
    Nat × List PipeStep :=
  if isValidHttpUrl url then
    match fetchImage url with
    | none => (500, [PipeStep.fetch])
    | some raw =>
      match runModel (preprocess_pytorch_style raw) with
      | none => (500, [PipeStep.fetch, PipeStep.transform, PipeStep.modelRun])
      | some scores =>
        match predictAssembly scores with
        | none => (500, [PipeStep.fetch, PipeStep.transform,
            PipeStep.modelRun, PipeStep.assemble])
        | some _ => (200, [PipeStep.fetch, PipeStep.transform,
            PipeStep.modelRun, PipeStep.assemble])
  else (422, [])

/-- The spec's channel-order probe: a (1, 224, 224, 3) array whose channel 0
is an all-255 plane and whose channels 1 and 2 are all-zero planes. -/
def chan0Probe : Arr4 :=
  ⟨1, 224, 224, 3, DType.f32, fun _ _ _ c => if c = 0 then 255 else 0⟩

/-- A constant mid-gray (1, 224, 224, 3) input, used as a concrete input. -/
def gray128 : Arr4 :=
  ⟨1, 224, 224, 3, DType.f32, fun _ _ _ _ => 128⟩

/-- Modelled from the spec: the image-acquisition collaborator
(`keras_image_helper`, external to this repository) decodes the fetched
image and resizes it to the configured target size, handing preprocessing a
pixel array of shape (target height, target width, 3 channels) (batched to
one). -/
def acquisitionShape (ts : Nat × Nat) : Nat × Nat × Nat :=
  (ts.1, ts.2, 3)

/-- `target_size=(224, 224)` of the `create_preprocessor` call
(source lines 31–34). -/
def target_size : Nat × Nat := (224, 224)

/-! ### Lemmas about the argmax fold and dict lookup -/

/-- Specification of the running-maximum fold: either no element beats the
initial accumulator (which is then returned, with every element bounded by
it), or the fold returns an element of the list that is strictly greater
than the accumulator, bounds every element, and strictly dominates every
element placed before it — i.e. the first maximal element wins. -/
theorem foldl_maxStep_spec (l : List (String × ℚ)) :
    ∀ b : String × ℚ,
      (l.foldl maxStep b = b ∧ ∀ p ∈ l, p.2 ≤ b.2) ∨
      (∃ pre post, l = pre ++ l.foldl maxStep b :: post ∧
        b.2 < (l.foldl maxStep b).2 ∧
        (∀ p ∈ pre, p.2 < (l.foldl maxStep b).2) ∧
        (∀ p ∈ l, p.2 ≤ (l.foldl maxStep b).2)) := by
  induction l with
  | nil =>
    intro b
    exact Or.inl ⟨rfl, by simp⟩
  | cons p l ih =>
    intro b
    have hstep : (p :: l).foldl maxStep b = l.foldl maxStep (maxStep b p) := rfl
    by_cases hpb : b.2 < p.2
    · have hmax : maxStep b p = p := by simp [maxStep, hpb]
      rw [hstep, hmax]
      rcases ih p with ⟨heq, hle⟩ | ⟨pre, post, hsplit, hlt, hpre, hall⟩
      · rw [heq]
        refine Or.inr ⟨[], l, by simp, hpb, by simp, ?_⟩
        intro q hq
        rcases List.mem_cons.mp hq with hq | hq
        · rw [hq]
        · exact hle q hq
      · refine Or.inr ⟨p :: pre, post, ?_, lt_trans hpb hlt, ?_, ?_⟩
        · rw [List.cons_append, ← hsplit]
        · intro q hq
          rcases List.mem_cons.mp hq with hq | hq
          · rw [hq]; exact hlt
          · exact hpre q hq
        · intro q hq
          rcases List.mem_cons.mp hq with hq | hq
          · rw [hq]; exact le_of_lt hlt
          · exact hall q hq
    · have hmax : maxStep b p = b := by simp [maxStep, hpb]
      rw [hstep, hmax]
      have hple : p.2 ≤ b.2 := le_of_not_lt hpb
      rcases ih b with ⟨heq, hle⟩ | ⟨pre, post, hsplit, hlt, hpre, hall⟩
      · refine Or.inl ⟨heq, ?_⟩
        intro q hq
        rcases List.mem_cons.mp hq with hq | hq
        · rw [hq]; exact hple
        · exact hle q hq
      · refine Or.inr ⟨p :: pre, post, ?_, hlt, ?_, ?_⟩
        · rw [List.cons_append, ← hsplit]
        · intro q hq
          rcases List.mem_cons.mp hq with hq | hq
          · rw [hq]; exact lt_of_le_of_lt hple hlt
          · exact hpre q hq
        · intro q hq
          rcases List.mem_cons.mp hq with hq | hq
          · rw [hq]; exact le_of_lt (lt_of_le_of_lt hple hlt)
          · exact hall q hq

/-- `argmaxFirst` returns an element of the dict that bounds every value and
strictly dominates every element placed before it in iteration order. -/
theorem argmaxFirst_spec {d : List (String × ℚ)} {res : String × ℚ}
    (h : argmaxFirst d = some res) :
    (∃ pre post, d = pre ++ res :: post ∧ ∀ p ∈ pre, p.2 < res.2) ∧
    ∀ p ∈ d, p.2 ≤ res.2 := by
  match d with
  | [] => exact absurd h (by simp [argmaxFirst])
  | q :: rest =>
    have hres : rest.foldl maxStep q = res := by
      simpa [argmaxFirst] using h
    rcases foldl_maxStep_spec rest q with ⟨heq, hle⟩ | ⟨pre, post, hsplit, hlt, hpre, hall⟩
    · have hq : res = q := by rw [← hres, heq]
      subst hq
      refine ⟨⟨[], rest, by simp [hres, heq], by simp⟩, ?_⟩
      intro p hp
      rcases List.mem_cons.mp hp with hp | hp
      · rw [hp]
      · exact hle p hp
    · rw [hres] at hsplit hlt hpre hall
      refine ⟨⟨q :: pre, post, by rw [List.cons_append, ← hsplit], ?_⟩, ?_⟩
      · intro p hp
        rcases List.mem_cons.mp hp with hp | hp
        · rw [hp]; exact hlt
        · exact hpre p hp
      · intro p hp
        rcases List.mem_cons.mp hp with hp | hp
        · rw [hp]; exact le_of_lt hlt
        · exact hall p hp

/-- The fixed class list has no duplicate names. -/
theorem classes_nodup : classes.Nodup := by decide

/-- The keys of `zip l1 l2` form a sublist of `l1`. -/
theorem map_fst_zip_sublist :
    ∀ (l1 : List String) (l2 : List ℚ),
      ((l1.zip l2).map Prod.fst).Sublist l1
  | [], _ => by simp
  | _ :: _, [] => by simp
  | a :: l1, b :: l2 => by
    simpa using (map_fst_zip_sublist l1 l2).cons₂ a

/-- The dict built by `dict(zip(classes, scores))` has pairwise distinct
keys, whatever the score list. -/
theorem zip_keys_nodup (scores : List ℚ) :
    ((classes.zip scores).map Prod.fst).Nodup :=
  classes_nodup.sublist (map_fst_zip_sublist classes scores)

/-- Any pair returned by `dictGet` is a pair of the dict. -/
theorem dictGet_mem {k : String} {v : ℚ} :
    ∀ {l : List (String × ℚ)}, dictGet k l = some v → (k, v) ∈ l := by
  intro l
  induction l with
  | nil => intro h; exact absurd h (by simp [dictGet])
  | cons p rest ih =>
    intro h
    rcases p with ⟨k2, v2⟩
    by_cases hk : k2 = k
    · subst hk
      have hv : v2 = v := by simpa [dictGet] using h
      rw [← hv]
      exact List.mem_cons_self _ _
    · rw [dictGet, if_neg hk] at h
      exact List.mem_cons_of_mem _ (ih h)

/-- When no earlier pair carries the key, `dictGet` returns the value of the
first pair with that key. -/
theorem dictGet_first {k : String} {v : ℚ} :
    ∀ (pre post : List (String × ℚ)),
      (∀ p ∈ pre, p.1 ≠ k) → dictGet k (pre ++ (k, v) :: post) = some v := by
  intro pre
  induction pre with
  | nil => intro post _; simp [dictGet]
  | cons p rest ih =>
    intro post hpre
    rcases p with ⟨k2, v2⟩
    have hk2 : k2 ≠ k := hpre (k2, v2) (List.mem_cons_self _ _)
    rw [List.cons_append, dictGet, if_neg hk2]
    exact ih post fun q hq => hpre q (List.mem_cons_of_mem _ hq)

/-- In a dict with pairwise distinct keys, no pair placed before `q` carries
the key of `q`. -/
theorem key_not_mem_pre {d pre post : List (String × ℚ)} {q : String × ℚ}
    (hd : d = pre ++ q :: post) (hnd : (d.map Prod.fst).Nodup) :
    ∀ p ∈ pre, p.1 ≠ q.1 := by
  subst hd
  intro p hp hpq
  rw [List.map_append, List.map_cons] at hnd
  have hdisj := List.disjoint_of_nodup_append hnd
  exact hdisj (List.mem_map_of_mem Prod.fst hp) (by simp [hpq])

/-- `getD` at the junction index of an append picks the head of the second
part. -/
theorem getD_append_length {α : Type} (xs : List α) (y : α) (zs : List α)
    (dflt : α) : (xs ++ y :: zs).getD xs.length dflt = y := by
  induction xs with
  | nil => rfl
  | cons x xs ih => simpa using ih

/-- Inversion of a successful assembly run: the mapping is
`dict(zip(classes, scores))` and `(top_class, top_probability)` is exactly
the pair the first-maximum scan selects (the dict lookup of `top_class`
recovers the scanned value because the keys are distinct). -/
theorem predictAssembly_some {scores : List ℚ} {d : List (String × ℚ)}
    {tc : String} {tp : ℚ} (h : predictAssembly scores = some (d, tc, tp)) :
    d = classes.zip scores ∧ argmaxFirst d = some (tc, tp) := by
  simp only [predictAssembly] at h
  split at h
  · exact absurd h (by simp)
  · next tb htb =>
    split at h
    · exact absurd h (by simp)
    · next tp2 hget =>
      simp only [Option.some.injEq, Prod.mk.injEq] at h
      obtain ⟨hd, htc, htp⟩ := h
      obtain ⟨⟨pre, post, hsplit, -⟩, -⟩ := argmaxFirst_spec htb
      have hpre := key_not_mem_pre hsplit (zip_keys_nodup scores)
      have hget2 : dictGet tb.1 (classes.zip scores) = some tb.2 := by
        rw [hsplit]
        exact dictGet_first pre post hpre
      rw [hget] at hget2
      have htb2 : tp2 = tb.2 := by simpa using hget2
      constructor
      · exact hd.symm
      · rw [← hd, htb, ← htc, ← htp, htb2]

/-- Reading the fifth freshly appended array. -/
theorem getArr_append_five (σ : Store) (a b c d e : Arr4) :
    getArr (σ ++ [a, b, c, d, e]) (σ.length + 4) = e := by
  unfold getArr
  rw [List.getD_append_right σ [a, b, c, d, e] defaultArr (σ.length + 4)
    (by omega)]
  have h4 : σ.length + 4 - σ.length = 4 := by omega
  rw [h4]
  rfl

/-- Appending fresh arrays leaves every existing reference readable
unchanged. -/
theorem getArr_append_left (σ : Store) (l : List Arr4) {r : Nat}
    (h : r < σ.length) : getArr (σ ++ l) r = getArr σ r := by
  unfold getArr
  rw [List.getD_append σ l defaultArr r h]

/-- The store-passing preprocessing run computes exactly the pure transform
of the input array, whatever else the store holds. -/
theorem preprocessS_value (σ : Store) (r : Nat) :
    getArr (preprocessS σ r).2 (preprocessS σ r).1
      = preprocess_pytorch_style (getArr σ r) := by
  simp only [preprocessS]
  rw [getArr_append_five]
  rfl

/-! ### The claims -/

/-- C1, counterexample: the 9-element score sequence `[1, …, 9]` does yield
a `PredictionResult` — `dict(zip(classes, scores))` silently truncates to 9
entries and no ShapeMismatch failure occurs, contradicting the claim that a
9-element sequence never yields a result. -/
theorem c1_counterexample :
    predictAssembly [1, 2, 3, 4, 5, 6, 7, 8, 9]
      = some (classes.zip [1, 2, 3, 4, 5, 6, 7, 8, 9], "skirt", 9) ∧
    (classes.zip [1, 2, 3, 4, 5, 6, 7, 8, 9]).length = 9 := by
  decide

/-- C1, amended: the assembly portion of `predict` performs no length
validation at all.  For every nonempty score sequence it succeeds, returning
the mapping `dict(zip(classes, scores))`, which silently truncates to
`min 10 (length scores)` entries; the only failing input is the empty
sequence (where Python's `max` raises `ValueError`, still not a
ShapeMismatch). -/
theorem c1_amended (scores : List ℚ) (h : scores ≠ []) :
    ∃ tc tp, predictAssembly scores = some (classes.zip scores, tc, tp) ∧
      (classes.zip scores).length = min classes.length scores.length := by
  obtain ⟨s, rest, rfl⟩ := List.exists_cons_of_ne_nil h
  have hcons : classes.zip (s :: rest)
      = ("dress", s) :: (classes.tail.zip rest) := rfl
  have htb : argmaxFirst (classes.zip (s :: rest))
      = some ((classes.tail.zip rest).foldl maxStep ("dress", s)) := by
    rw [hcons]; rfl
  obtain ⟨⟨pre, post, hsplit, -⟩, -⟩ := argmaxFirst_spec htb
  have hpre := key_not_mem_pre hsplit (zip_keys_nodup (s :: rest))
  have hget : dictGet ((classes.tail.zip rest).foldl maxStep ("dress", s)).1
      (classes.zip (s :: rest))
      = some ((classes.tail.zip rest).foldl maxStep ("dress", s)).2 := by
    rw [hsplit]
    exact dictGet_first pre post hpre
  refine ⟨((classes.tail.zip rest).foldl maxStep ("dress", s)).1,
    ((classes.tail.zip rest).foldl maxStep ("dress", s)).2, ?_, ?_⟩
  · simp [predictAssembly, htb, hget]
  · rw [List.length_zip]

/-- C1, amended, witness: the 11-element sequence `[0,…,0,5,6]` is accepted
and its mapping has `min 10 11 = 10` entries (the eleventh score is
dropped). -/
theorem c1_amended_witness :
    ∃ tc tp,
      predictAssembly ([0, 0, 0, 0, 0, 0, 0, 0, 0, 0, 6] : List ℚ)
        = some (classes.zip ([0, 0, 0, 0, 0, 0, 0, 0, 0, 0, 6] : List ℚ),
            tc, tp) ∧
      (classes.zip ([0, 0, 0, 0, 0, 0, 0, 0, 0, 0, 6] : List ℚ)).length
        = min classes.length
            ([0, 0, 0, 0, 0, 0, 0, 0, 0, 0, 6] : List ℚ).length :=
  c1_amended ([0, 0, 0, 0, 0, 0, 0, 0, 0, 0, 6] : List ℚ) (by simp)

/-- C2: whenever assembly of a 10-element score vector returns
`(d, top_class, top_probability)`, the pair `(top_class, top_probability)`
splits the mapping (which is in fixed class-list order) so that every
earlier entry scores strictly below it and every entry scores at most it:
`top_class` is the class occurring earliest in the fixed class list among
those achieving the maximum, here witnessed positionally by
`classes.getD` and `scores.getD` at the split point. -/
theorem c2_tie_break (scores : List ℚ) (h10 : scores.length = 10)
    {d : List (String × ℚ)} {tc : String} {tp : ℚ}
    (h : predictAssembly scores = some (d, tc, tp)) :
    ∃ pre post, d = pre ++ (tc, tp) :: post ∧
      (∀ p ∈ pre, p.2 < tp) ∧
      (∀ p ∈ d, p.2 ≤ tp) ∧
      classes.getD pre.length "" = tc ∧
      scores.getD pre.length 0 = tp := by
  obtain ⟨hd, hmax⟩ := predictAssembly_some h
  obtain ⟨⟨pre, post, hsplit, hpre⟩, hall⟩ := argmaxFirst_spec hmax
  have hfst : d.map Prod.fst = classes := by
    rw [hd]
    exact List.map_fst_zip _ _ (by rw [h10]; decide)
  have hsnd : d.map Prod.snd = scores := by
    rw [hd]
    exact List.map_snd_zip _ _ (by rw [h10]; decide)
  refine ⟨pre, post, hsplit, hpre, hall, ?_, ?_⟩
  · rw [← hfst, hsplit, List.map_append, List.map_cons]
    have h4 := getD_append_length (pre.map Prod.fst) tc (post.map Prod.fst) ""
    simpa [List.length_map] using h4
  · rw [← hsnd, hsplit, List.map_append, List.map_cons]
    have h4 := getD_append_length (pre.map Prod.snd) tp (post.map Prod.snd) 0
    simpa [List.length_map] using h4

/-- C2, witness: the score vector `[0,1,0,0,0,1,0,0,0,0]` has its maximum 1
attained at both "hat" (index 1) and "shirt" (index 5); assembly returns
"hat", the earlier of the two in the fixed class list. -/
theorem c2_tie_break_witness :
    ∃ pre post,
      classes.zip ([0, 1, 0, 0, 0, 1, 0, 0, 0, 0] : List ℚ)
        = pre ++ ("hat", (1 : ℚ)) :: post ∧
      (∀ p ∈ pre, p.2 < 1) ∧
      (∀ p ∈ classes.zip ([0, 1, 0, 0, 0, 1, 0, 0, 0, 0] : List ℚ),
        p.2 ≤ 1) ∧
      classes.getD pre.length "" = "hat" ∧
      ([0, 1, 0, 0, 0, 1, 0, 0, 0, 0] : List ℚ).getD pre.length 0 = 1 :=
  c2_tie_break ([0, 1, 0, 0, 0, 1, 0, 0, 0, 0] : List ℚ) (by decide)
    (show predictAssembly ([0, 1, 0, 0, 0, 1, 0, 0, 0, 0] : List ℚ)
      = some (classes.zip ([0, 1, 0, 0, 0, 1, 0, 0, 0, 0] : List ℚ), "hat", 1)
      by decide)

/-- C4: whenever assembly returns `(d, top_class, top_probability)`, the
pair `(top_class, top_probability)` is an entry of the mapping and
`top_probability` is the maximum of the mapping's values (it is among the
values and bounds them all). -/
theorem c4_top_invariant (scores : List ℚ) {d : List (String × ℚ)}
    {tc : String} {tp : ℚ}
    (h : predictAssembly scores = some (d, tc, tp)) :
    (tc, tp) ∈ d ∧ tp ∈ d.map Prod.snd ∧ ∀ v ∈ d.map Prod.snd, v ≤ tp := by
  obtain ⟨-, hmax⟩ := predictAssembly_some h
  obtain ⟨⟨pre, post, hsplit, -⟩, hall⟩ := argmaxFirst_spec hmax
  have hmem : (tc, tp) ∈ d := by
    rw [hsplit]
    exact List.mem_append_right _ (List.mem_cons_self _ _)
  refine ⟨hmem, List.mem_map_of_mem Prod.snd hmem, ?_⟩
  intro v hv
  obtain ⟨p, hp, rfl⟩ := List.mem_map.mp hv
  exact hall p hp

/-- C4, witness: on `[1,1,1,1,1,1,1,1,2,1]` the result pair
`("skirt", 2)` belongs to the mapping and 2 is the maximum value. -/
theorem c4_top_invariant_witness :
    ("skirt", (2 : ℚ))
        ∈ classes.zip ([1, 1, 1, 1, 1, 1, 1, 1, 2, 1] : List ℚ) ∧
    (2 : ℚ) ∈ (classes.zip
        ([1, 1, 1, 1, 1, 1, 1, 1, 2, 1] : List ℚ)).map Prod.snd ∧
    ∀ v ∈ (classes.zip
        ([1, 1, 1, 1, 1, 1, 1, 1, 2, 1] : List ℚ)).map Prod.snd,
      v ≤ 2 :=
  c4_top_invariant ([1, 1, 1, 1, 1, 1, 1, 1, 2, 1] : List ℚ)
    (show predictAssembly ([1, 1, 1, 1, 1, 1, 1, 1, 2, 1] : List ℚ)
      = some (classes.zip ([1, 1, 1, 1, 1, 1, 1, 1, 2, 1] : List ℚ),
          "skirt", 2) by decide)

/-- C5: on the spec's concrete score vector, assembly returns top class
"skirt" with top probability 0.3, and the mapping holds all 10 class names
with the input scores assigned positionally. -/
theorem c5_assembly_determinism :
    predictAssembly [0.1, 0.05, 0.05, 0.05, 0.05, 0.1, 0.1, 0.1, 0.3, 0.1]
      = some ([("dress", 0.1), ("hat", 0.05), ("longsleeve", 0.05),
          ("outwear", 0.05), ("pants", 0.05), ("shirt", 0.1), ("shoes", 0.1),
          ("shorts", 0.1), ("skirt", 0.3), ("t-shirt", 0.1)],
          "skirt", 0.3) := by
  norm_num [predictAssembly, argmaxFirst, maxStep, dictGet, classes]
  rfl

/-- C3: for every (1, 224, 224, 3) input with values in [0, 255], the
preprocessing transform returns a (1, 3, 224, 224) float32 tensor whose
every element is `((pixel / 255) - mean[c]) / std[c]` for its channel `c`
(float arithmetic modelled exactly over ℚ); and on the synthetic probe
whose channel 0 is an all-255 plane and channels 1, 2 all-zero planes, the
output channel planes are the three constants of the spec. -/
theorem c3_preprocess :
    (∀ X : Arr4, X.d0 = 1 → X.d1 = 224 → X.d2 = 224 → X.d3 = 3 →
      (∀ b h w c, 0 ≤ X.data b h w c ∧ X.data b h w c ≤ 255) →
      (preprocess_pytorch_style X).d0 = 1 ∧
      (preprocess_pytorch_style X).d1 = 3 ∧
      (preprocess_pytorch_style X).d2 = 224 ∧
      (preprocess_pytorch_style X).d3 = 224 ∧
      (preprocess_pytorch_style X).dtype = DType.f32 ∧
      ∀ b c h w, (preprocess_pytorch_style X).data b c h w
        = (X.data b h w c / 255 - meanVec c) / stdVec c) ∧
    ∀ h w,
      (preprocess_pytorch_style chan0Probe).data 0 0 h w
        = (1 - 0.485) / 0.229 ∧
      (preprocess_pytorch_style chan0Probe).data 0 1 h w
        = (0 - 0.456) / 0.224 ∧
      (preprocess_pytorch_style chan0Probe).data 0 2 h w
        = (0 - 0.406) / 0.225 := by
  constructor
  · intro X h0 h1 h2 h3 _
    refine ⟨?_, ?_, ?_, ?_, rfl, fun b c h w => rfl⟩
    all_goals
      simp [preprocess_pytorch_style, Arr4.divScalar, Arr4.transpose0312,
        Arr4.subChannel, Arr4.divChannel, Arr4.astypeF32, h0, h1, h2, h3]
  · intro h w
    refine ⟨?_, ?_, ?_⟩ <;>
      norm_num [preprocess_pytorch_style, Arr4.divScalar, Arr4.transpose0312,
        Arr4.subChannel, Arr4.divChannel, Arr4.astypeF32, chan0Probe,
        meanVec, stdVec]

/-- C3, witness: the constant-128 input satisfies the shape and range
hypotheses; the output is float32 and its first element is the normalized
mid-gray value. -/
theorem c3_preprocess_witness :
    (preprocess_pytorch_style gray128).dtype = DType.f32 ∧
    (preprocess_pytorch_style gray128).data 0 0 0 0
      = ((128 : ℚ) / 255 - 0.485) / 0.229 := by
  have h := c3_preprocess.1 gray128 rfl rfl rfl rfl
    (fun b hh w c => by norm_num [gray128])
  refine ⟨h.2.2.2.2.1, ?_⟩
  rw [h.2.2.2.2.2 0 0 0 0]
  norm_num [gray128, meanVec, stdVec]

/-- C6, counterexample: the pixel array the acquisition collaborator hands
to preprocessing is sized by the configured `target_size=(224, 224)`, so
its shape is not (height 299, width 299, 3 channels) as the claim states
(the 299 comes from a stale comment on source line 15). -/
theorem c6_counterexample : acquisitionShape target_size ≠ (299, 299, 3) := by
  decide

/-- C6, amended: the decoded, resized pixel array produced by image
acquisition has shape (height 224, width 224, 3 channels), the spatial
resize being performed by the collaborator per the configured target size
(224, 224) before the preprocessing transform runs. -/
theorem c6_amended : acquisitionShape target_size = (224, 224, 3) := rfl

/-- C7: `GET /health` returns the body `status: healthy` with success
status 200 for every process state, and its response is independent of the
state (model load state included). -/
theorem c7_health :
    (∀ s : AppState, health s = (200, [("status", "healthy")])) ∧
    ∀ s t : AppState, health s = health t :=
  ⟨fun _ => rfl, fun _ _ => rfl⟩

/-- C8: a request whose URL fails format validation is answered with the
422 validation error (a client-error status) and the list of pipeline
stages that ran is empty — no fetch, preprocessing, model execution or
assembly happens — whatever the fetch and model collaborators would do. -/
theorem c8_invalid_url (fetchImage : String → Option Arr4)
    (runModel : Arr4 → Option (List ℚ)) (url : String)
    (h : isValidHttpUrl url = false) :
    servicePredict fetchImage runModel url = (422, []) := by
  simp [servicePredict, h]

/-- C8, witness: the empty string fails URL validation and is rejected with
422 and no pipeline work. -/
theorem c8_invalid_url_witness :
    isValidHttpUrl "" = false ∧
    servicePredict (fun _ => none) (fun _ => none) "" = (422, []) :=
  ⟨by decide, c8_invalid_url (fun _ => none) (fun _ => none) "" (by decide)⟩

/-- C9: preprocessing and assembly are pure: the array the store-passing
preprocessing run yields is exactly the pure function of its input array
(no dependence on anything else in the store), the assembly result
dereferenced from the dict store is exactly the pure function of the score
list, and running preprocessing a second time on the same input reference —
now against the store the first run extended — yields the identical output
array. -/
theorem c9_purity (σ : Store) (r : Nat) (σd : DStore) (scores : List ℚ)
    (h : r < σ.length) :
    getArr (preprocessS σ r).2 (preprocessS σ r).1
      = preprocess_pytorch_style (getArr σ r) ∧
    derefAssembly (predictAssemblyS σd scores) = predictAssembly scores ∧
    getArr (preprocessS (preprocessS σ r).2 r).2
        (preprocessS (preprocessS σ r).2 r).1
      = getArr (preprocessS σ r).2 (preprocessS σ r).1 := by
  refine ⟨preprocessS_value σ r, ?_, ?_⟩
  · rcases htb : argmaxFirst (classes.zip scores) with _ | tb
    · simp [predictAssemblyS, predictAssembly, derefAssembly, htb]
    · rcases hget : dictGet tb.1 (classes.zip scores) with _ | tp
      · simp [predictAssemblyS, predictAssembly, derefAssembly, htb, hget]
      · simp [predictAssemblyS, predictAssembly, derefAssembly, htb, hget,
          getD_append_length]
  · rw [preprocessS_value, preprocessS_value]
    have hleft : getArr (preprocessS σ r).2 r = getArr σ r := by
      simp only [preprocessS]
      exact getArr_append_left σ _ h
    rw [hleft]

/-- C9, witness: a singleton store at reference 0, an empty dict store and
the empty score list instantiate the purity statement. -/
theorem c9_purity_witness :
    getArr (preprocessS [defaultArr] 0).2 (preprocessS [defaultArr] 0).1
      = preprocess_pytorch_style (getArr [defaultArr] 0) ∧
    derefAssembly (predictAssemblyS [] []) = predictAssembly [] ∧
    getArr (preprocessS (preprocessS [defaultArr] 0).2 0).2
        (preprocessS (preprocessS [defaultArr] 0).2 0).1
      = getArr (preprocessS [defaultArr] 0).2 (preprocessS [defaultArr] 0).1 :=
  c9_purity [defaultArr] 0 [] [] (by decide)

/-- C10: preprocessing never mutates its input array — nor any other
existing array: the first `length σ` entries of the store after the run are
exactly the store before it, and the run only appended the five freshly
allocated arrays of its five steps. -/
theorem c10_no_mutation (σ : Store) (r : Nat) :
    ((preprocessS σ r).2).take σ.length = σ ∧
    ((preprocessS σ r).2).length = σ.length + 5 := by
  constructor
  · simp only [preprocessS]
    exact List.take_left σ _
  · simp [preprocessS]

end ClothingApp
